import Mathlib

/-!
Shallow embedding of `src/apps/api/src/ml/training/train-ranker.py`.

The script loads a feedback CSV into grouped ranking training data
(`load_csv`), drops query groups whose records all share one label, exits
when nothing usable remains, and hands the grouped data to LightGBM
(`train`).  Rows are modelled as the value lists `csv.DictReader` zips
against the header; numeric cells are modelled by recognisers for the
grammar accepted by Python's `int()` / `float()` (underscore digit
separators are not modelled; no claim involves them).  A feature value is
represented by its exact textual encoding: no stated property depends on
the numeric magnitude of a feature, only on which cell parses and where its
row travels.  Abort paths (uncaught `KeyError` / `TypeError` /
`ValueError`, and `sys.exit(1)`) are modelled as `Except` errors.
-/

namespace TrainRanker

/-- `FEATURE_COLS` from the script: the seven feature columns, order
significant. -/
def FEATURE_COLS : List String :=
  ["f0_similarity", "f1_rank_score", "f2_authority", "f3_source_boost",
   "f4_crop_match", "f5_term_density", "f6_chunk_pos"]

/-- `LABEL_GAIN` from the script: `gain[label]` maps the ordinal label to
its NDCG gain. -/
def LABEL_GAIN : List Int := [0, 1, 3]

/-- Abort conditions of the loader, mirroring the Python exceptions and
exits: `schemaMismatch f` is the `KeyError` raised when field `f` is absent
from the CSV header; `noneValue f` is the `TypeError` raised when
`DictReader` padded a short row with `None` for `f` and `int`/`float` was
applied to it; `malformedInt t` / `malformedFloat t` are the `ValueError`
raised by `int(t)` / `float(t)` — the exception carries the offending text,
nothing else; `noUsableData` is the `sys.exit(1)` taken when no rows
survive the uniform-label filter. -/
inductive LoadError where
  | schemaMismatch (field : String)
  | noneValue (field : String)
  | malformedInt (text : String)
  | malformedFloat (text : String)
  | noUsableData
deriving DecidableEq

/-- A CSV as `csv.DictReader` sees it: the header line and the value lists
of the data rows. -/
structure Csv where
  header : List String
  rows : List (List String)
deriving DecidableEq

/-- One parsed feedback row.  `qid` is `Option String` because a short row
is padded by `DictReader` with `None`, which the script happily uses as a
group key. -/
structure Record where
  qid : Option String
  label : Int
  features : List String
deriving DecidableEq

/-- The flattened training data: feature rows, parallel labels, group
sizes (the Python lists `X_rows`, `y_rows`, `groups` before the `np.array`
conversion, which only changes representation for the external library). -/
structure TrainingSet where
  X : List (List String)
  y : List Int
  groups : List Nat
deriving DecidableEq

deriving instance DecidableEq for Except

/-- Position of a field in the header (`DictReader` zips header against
row values). -/
def fieldIdx (header : List String) (f : String) : Option Nat :=
  header.findIdx? (fun h => h == f)

/-- `row["qid"]`: `KeyError` when `qid` is not a header field; a short
row yields the key `None` (here `none`). -/
def rowKey (header vals : List String) : Except LoadError (Option String) :=
  match fieldIdx header "qid" with
  | none => .error (.schemaMismatch "qid")
  | some i => .ok (vals.get? i)

/-- `row[f]` for a field that is then converted by `int`/`float`:
`KeyError` when `f` is not in the header, `TypeError` (via the `None`
padding) when the row is too short. -/
def rowField (header vals : List String) (f : String) : Except LoadError String :=
  match fieldIdx header f with
  | none => .error (.schemaMismatch f)
  | some i =>
    match vals.get? i with
    | some v => .ok v
    | none => .error (.noneValue f)

/-- ASCII whitespace as stripped by Python's `int`/`float` conversion. -/
def isPyWs (c : Char) : Bool :=
  c == ' ' || c == '\t' || c == '\n' || c == '\r' || c == '\x0b' || c == '\x0c'

/-- Strip surrounding whitespace, as `int()`/`float()` do. -/
def pyStrip (cs : List Char) : List Char :=
  ((cs.dropWhile isPyWs).reverse.dropWhile isPyWs).reverse

/-- Value of a nonempty all-digit string, `none` otherwise. -/
def parseDigits (cs : List Char) : Option Nat :=
  if cs ≠ [] ∧ cs.all (fun c => c.isDigit) then
    some (cs.foldl (fun n c => 10 * n + (c.toNat - 48)) 0)
  else none

/-- Python `int(s)` on its core grammar: optional surrounding whitespace,
optional sign, a nonempty digit string. -/
def parseIntPy (s : String) : Option Int :=
  match pyStrip s.toList with
  | '+' :: rest => (parseDigits rest).map (fun n => (n : Int))
  | '-' :: rest => (parseDigits rest).map (fun n => -(n : Int))
  | rest => (parseDigits rest).map (fun n => (n : Int))

/-- Strip one leading sign character. -/
def stripSign : List Char → List Char
  | '+' :: r => r
  | '-' :: r => r
  | r => r

/-- Split at the first exponent marker `e`/`E`. -/
def splitExp : List Char → List Char × Option (List Char)
  | [] => ([], none)
  | c :: rest =>
    if c = 'e' ∨ c = 'E' then ([], some rest)
    else
      let p := splitExp rest
      (c :: p.1, p.2)

/-- Mantissa grammar of Python `float`: digits, `digits.digits*`,
`digits*.digits` — at least one digit overall, at most one dot. -/
def mantOk (cs : List Char) : Bool :=
  if cs.contains '.' then
    let i := cs.findIdx (fun c => c == '.')
    let a := cs.take i
    let b := cs.drop (i + 1)
    !b.contains '.' && a.all (fun c => c.isDigit) && b.all (fun c => c.isDigit)
      && (!a.isEmpty || !b.isEmpty)
  else !cs.isEmpty && cs.all (fun c => c.isDigit)

/-- Exponent grammar: optional sign, nonempty digits. -/
def expOk (cs : List Char) : Bool :=
  let ds := stripSign cs
  !ds.isEmpty && ds.all (fun c => c.isDigit)

/-- Python `float(s)` as a recogniser (underscore separators not
modelled).  The parsed value is represented by the exact text of the cell:
no stated property depends on a feature's numeric magnitude. -/
def parseFloatPy (s : String) : Option String :=
  let body := stripSign (pyStrip s.toList)
  let lower := body.map Char.toLower
  if lower = "inf".toList ∨ lower = "infinity".toList ∨ lower = "nan".toList then
    some s
  else
    let p := splitExp body
    if mantOk p.1 && (match p.2 with | none => true | some ex => expOk ex) then
      some s
    else none

/-- `[float(row[col]) for col in cols]`: left-to-right, first failure
aborts. -/
def parseFeatures (header vals : List String) : List String → Except LoadError (List String)
  | [] => .ok []
  | c :: cs =>
    match rowField header vals c with
    | .error e => .error e
    | .ok t =>
      match parseFloatPy t with
      | none => .error (.malformedFloat t)
      | some v =>
        match parseFeatures header vals cs with
        | .error e => .error e
        | .ok rest => .ok (v :: rest)

/-- The loop body of `load_csv`'s reading phase for one row:
`qid = row["qid"]; label = int(row["label"]); features = [...]`. -/
def parseRow (header vals : List String) : Except LoadError Record :=
  match rowKey header vals with
  | .error e => .error e
  | .ok qid =>
    match rowField header vals "label" with
    | .error e => .error e
    | .ok labelText =>
      match parseIntPy labelText with
      | none => .error (.malformedInt labelText)
      | some label =>
        match parseFeatures header vals FEATURE_COLS with
        | .error e => .error e
        | .ok features => .ok { qid := qid, label := label, features := features }

/-- Parse all data rows in order; the first bad row aborts the run. -/
def parseAll (header : List String) : List (List String) → Except LoadError (List Record)
  | [] => .ok []
  | v :: vs =>
    match parseRow header v with
    | .error e => .error e
    | .ok r =>
      match parseAll header vs with
      | .error e => .error e
      | .ok rs => .ok (r :: rs)

/-- `by_query[qid].append((features, label))` on an insertion-ordered
dict (Python 3.7+ semantics): an existing key keeps its position and the
record is appended to its list; a new key goes to the end. -/
def insertRow (acc : List (Option String × List Record)) (r : Record) :
    List (Option String × List Record) :=
  if acc.any (fun p => p.1 == r.qid) then
    acc.map (fun p => if p.1 == r.qid then (p.1, p.2 ++ [r]) else p)
  else acc ++ [(r.qid, [r])]

/-- The grouping phase of `load_csv`: fold the records into the
insertion-ordered `by_query` dict. -/
def byQuery (records : List Record) : List (Option String × List Record) :=
  records.foldl insertRow []

/-- `len(set(labels))` for a group's records. -/
def distinctLabelCount (items : List Record) : Nat :=
  ((items.map Record.label).dedup).length

/-- Loop body of `load_csv`'s emission phase for one group: skip and
count it when it has fewer than two distinct labels, otherwise append its
feature rows, labels and size. -/
def prepStep (acc : TrainingSet × Nat) (p : Option String × List Record) :
    TrainingSet × Nat :=
  if distinctLabelCount p.2 < 2 then (acc.1, acc.2 + 1)
  else
    ({ X := acc.1.X ++ p.2.map Record.features,
       y := acc.1.y ++ p.2.map Record.label,
       groups := acc.1.groups ++ [p.2.length] }, acc.2)

/-- The emission phase of `load_csv` over the grouped records, returning
the training set and the skipped-group counter. -/
def prepare (gs : List (Option String × List Record)) : TrainingSet × Nat :=
  gs.foldl prepStep (⟨[], [], []⟩, 0)

/-- `load_csv`: parse, group, filter and flatten; `sys.exit(1)` (modelled
as `noUsableData`) when no rows survive.  The returned `Nat` is the
skipped-group counter the script reports on stderr. -/
def load_csv (csv : Csv) : Except LoadError (TrainingSet × Nat) :=
  match parseAll csv.header csv.rows with
  | .error e => .error e
  | .ok records =>
    let prepared := prepare (byQuery records)
    if prepared.1.X.isEmpty then .error .noUsableData
    else .ok prepared

/-- The fixed LightGBM parameter dict built inside `train`. -/
structure TrainParams where
  objective : String
  metric : String
  ndcgEvalAt : List Nat
  labelGain : List Int
  learningRate : ℚ
  numLeaves : Nat
  minDataInLeaf : Nat
  verbose : Int
deriving DecidableEq

/-- The literal `params` dict of `train`. -/
def trainParams : TrainParams :=
  { objective := "lambdarank"
    metric := "ndcg"
    ndcgEvalAt := [3, 5]
    labelGain := LABEL_GAIN
    learningRate := 1 / 20
    numLeaves := 31
    minDataInLeaf := 5
    verbose := -1 }

/-- What the trainer does with its argument.  `invalidTrainingSet` is the
defensive failure the design document describes for an unusable training
set; `delegate` is an unconditional call into the external boosting
library (`lgb.train`) with the given data, parameter dict and round
count. -/
inductive TrainResult where
  | invalidTrainingSet
  | delegate (X : List (List String)) (y : List Int) (groups : List Nat)
      (params : TrainParams) (rounds : Nat)
deriving DecidableEq

/-- `train` from the script: it builds the dataset and parameter dict and
calls `lgb.train` for 300 rounds, with no validation of its argument. -/
def train (X : List (List String)) (y : List Int) (groups : List Nat) : TrainResult :=
  .delegate X y groups trainParams 300

/-- `main`'s core control flow: `X, y, groups = load_csv(...)` followed by
`train(X, y, groups)`; a loader failure means the trainer is never
invoked. -/
def runPipeline (csv : Csv) : Except LoadError TrainResult :=
  match load_csv csv with
  | .error e => .error e
  | .ok p => .ok (train p.1.X p.1.y p.1.groups)

/-! ## Specification-side descriptions of the grouping and emission phases

These are independent descriptions of what the phases compute, written
with `List.filter` over the input, to be proved equal to the fold-based
code above. -/

/-- Accumulate the distinct `qid`s in order of first occurrence. -/
def firstKeysStep (ks : List (Option String)) (r : Record) : List (Option String) :=
  if r.qid ∈ ks then ks else ks ++ [r.qid]

/-- The distinct `qid`s of the input, in order of first occurrence. -/
def firstKeys (records : List Record) : List (Option String) :=
  records.foldl firstKeysStep []

/-- All records of query `q`, in input order. -/
def groupOf (records : List Record) (q : Option String) : List Record :=
  records.filter (fun r => r.qid == q)

/-- The grouped records as a first-occurrence-ordered association list. -/
def canonGroups (records : List Record) : List (Option String × List Record) :=
  (firstKeys records).map (fun q => (q, groupOf records q))

/-- The groups that survive the ranking-signal filter. -/
def usableOf (gs : List (Option String × List Record)) :
    List (Option String × List Record) :=
  gs.filter (fun p => decide (2 ≤ distinctLabelCount p.2))

/-- The flattened training set the emission phase should produce. -/
def emitTS (gs : List (Option String × List Record)) : TrainingSet :=
  ⟨(usableOf gs).flatMap (fun p => p.2.map Record.features),
   (usableOf gs).flatMap (fun p => p.2.map Record.label),
   (usableOf gs).map (fun p => p.2.length)⟩

/-- The number of groups the filter drops. -/
def skipCount (gs : List (Option String × List Record)) : Nat :=
  (gs.filter (fun p => decide (distinctLabelCount p.2 < 2))).length

/-- All records of a group carry one label. -/
def uniformLabels (items : List Record) : Bool :=
  items.all (fun r => items.all (fun s => r.label == s.label))

/-- Concatenation of training sets. -/
def tsAppend (a b : TrainingSet) : TrainingSet :=
  ⟨a.X ++ b.X, a.y ++ b.y, a.groups ++ b.groups⟩

/-! ## The grouping phase computes `canonGroups` -/

theorem mem_foldl_firstKeysStep (l : List Record) (ks : List (Option String))
    (q : Option String) :
    q ∈ l.foldl firstKeysStep ks ↔ q ∈ ks ∨ q ∈ l.map Record.qid := by
  induction l generalizing ks with
  | nil => simp
  | cons r rs ih =>
    simp only [List.foldl_cons, ih, firstKeysStep, List.map_cons, List.mem_cons]
    by_cases h : r.qid ∈ ks
    · simp only [if_pos h]
      constructor
      · tauto
      · rintro (hq | hq | hq) <;> [tauto; (subst hq; tauto); tauto]
    · simp only [if_neg h, List.mem_append, List.mem_singleton]
      tauto

theorem mem_firstKeys (records : List Record) (q : Option String) :
    q ∈ firstKeys records ↔ q ∈ records.map Record.qid := by
  simpa [firstKeys] using mem_foldl_firstKeysStep records [] q

theorem firstKeys_concat (pre : List Record) (r : Record) :
    firstKeys (pre ++ [r]) = firstKeysStep (firstKeys pre) r := by
  simp [firstKeys, List.foldl_append]

theorem groupOf_concat (pre : List Record) (r : Record) (q : Option String) :
    groupOf (pre ++ [r]) q = groupOf pre q ++ (if r.qid == q then [r] else []) := by
  simp [groupOf, List.filter_append, List.filter_cons]

theorem groupOf_eq_nil_of_not_mem (pre : List Record) (r : Record)
    (h : r.qid ∉ firstKeys pre) : groupOf pre r.qid = [] := by
  rw [groupOf, List.filter_eq_nil_iff]
  intro x hx hbeq
  exact h ((mem_firstKeys pre r.qid).mpr
    (List.mem_map.mpr ⟨x, hx, by simpa using hbeq⟩))

theorem insertRow_canon (pre : List Record) (r : Record) :
    insertRow (canonGroups pre) r = canonGroups (pre ++ [r]) := by
  have hany : (canonGroups pre).any (fun p => p.1 == r.qid) = true ↔
      r.qid ∈ firstKeys pre := by
    rw [canonGroups, List.any_eq_true]
    constructor
    · rintro ⟨p, hp, hbeq⟩
      rcases List.mem_map.mp hp with ⟨q, hq, rfl⟩
      have hqr : q = r.qid := by simpa using hbeq
      exact hqr ▸ hq
    · intro hq
      exact ⟨(r.qid, groupOf pre r.qid), List.mem_map.mpr ⟨r.qid, hq, rfl⟩, by simp⟩
  by_cases hmem : r.qid ∈ firstKeys pre
  · rw [insertRow, if_pos (hany.mpr hmem)]
    have hk : firstKeys (pre ++ [r]) = firstKeys pre := by
      rw [firstKeys_concat, firstKeysStep, if_pos hmem]
    simp only [canonGroups, hk, List.map_map]
    refine List.map_congr_left (fun q _ => ?_)
    simp only [Function.comp_apply]
    by_cases hqr : q = r.qid
    · subst hqr
      simp [groupOf_concat]
    · have h1 : (q == r.qid) = false := beq_eq_false_iff_ne.mpr hqr
      have h2 : (r.qid == q) = false :=
        beq_eq_false_iff_ne.mpr (fun h => hqr h.symm)
      simp [groupOf_concat, h1, h2]
  · have hnotany : ¬ ((canonGroups pre).any (fun p => p.1 == r.qid) = true) :=
      fun h => hmem (hany.mp h)
    rw [insertRow, if_neg hnotany]
    have hk : firstKeys (pre ++ [r]) = firstKeys pre ++ [r.qid] := by
      rw [firstKeys_concat, firstKeysStep, if_neg hmem]
    simp only [canonGroups, hk, List.map_append, List.map_cons, List.map_nil]
    congr 1
    · refine List.map_congr_left (fun q hq => ?_)
      have hne : r.qid ≠ q := fun h => hmem (h ▸ hq)
      have h2 : (r.qid == q) = false := beq_eq_false_iff_ne.mpr hne
      simp [groupOf_concat, h2]
    · simp [groupOf_concat, groupOf_eq_nil_of_not_mem pre r hmem]

theorem foldl_insertRow_canon (rest pre : List Record) :
    rest.foldl insertRow (canonGroups pre) = canonGroups (pre ++ rest) := by
  induction rest generalizing pre with
  | nil => simp
  | cons r rs ih =>
    rw [List.foldl_cons, insertRow_canon, ih]
    simp

theorem byQuery_eq_canon (records : List Record) :
    byQuery records = canonGroups records := by
  have h0 : canonGroups [] = [] := by simp [canonGroups, firstKeys]
  have := foldl_insertRow_canon records []
  simpa [byQuery, h0] using this

theorem canon_group_ne_nil (records : List Record)
    (p : Option String × List Record) (hp : p ∈ canonGroups records) :
    p.2 ≠ [] := by
  rcases List.mem_map.mp hp with ⟨q, hq, rfl⟩
  rcases List.mem_map.mp ((mem_firstKeys records q).mp hq) with ⟨x, hx, rfl⟩
  intro hnil
  have hnil' : groupOf records x.qid = [] := hnil
  have hmem2 : x ∈ groupOf records x.qid := List.mem_filter.mpr ⟨hx, by simp⟩
  rw [hnil'] at hmem2
  exact (List.not_mem_nil x) hmem2

/-! ## The emission phase computes `emitTS` and `skipCount` -/

theorem tsAppend_empty (a : TrainingSet) : tsAppend a ⟨[], [], []⟩ = a := by
  simp [tsAppend]

theorem foldl_prepStep (gs : List (Option String × List Record))
    (acc : TrainingSet × Nat) :
    gs.foldl prepStep acc = (tsAppend acc.1 (emitTS gs), acc.2 + skipCount gs) := by
  induction gs generalizing acc with
  | nil => simp [emitTS, usableOf, skipCount, tsAppend_empty]
  | cons p ps ih =>
    rw [List.foldl_cons, ih]
    by_cases h : distinctLabelCount p.2 < 2
    · have hstep : prepStep acc p = (acc.1, acc.2 + 1) := by
        rw [prepStep, if_pos h]
      have h2 : ¬ (2 ≤ distinctLabelCount p.2) := by omega
      have hu : usableOf (p :: ps) = usableOf ps := by
        simp [usableOf, List.filter_cons, h2]
      have hemit : emitTS (p :: ps) = emitTS ps := by
        rw [emitTS, emitTS, hu]
      have hs : skipCount (p :: ps) = skipCount ps + 1 := by
        simp [skipCount, List.filter_cons, h]
      rw [hstep, hemit, hs]
      congr 1
      omega
    · have hstep : prepStep acc p =
          ({ X := acc.1.X ++ p.2.map Record.features,
             y := acc.1.y ++ p.2.map Record.label,
             groups := acc.1.groups ++ [p.2.length] }, acc.2) := by
        rw [prepStep, if_neg h]
      have h2 : 2 ≤ distinctLabelCount p.2 := by omega
      have hu : usableOf (p :: ps) = p :: usableOf ps := by
        simp [usableOf, List.filter_cons, h2]
      have hemit : emitTS (p :: ps) =
          tsAppend ⟨p.2.map Record.features, p.2.map Record.label, [p.2.length]⟩
            (emitTS ps) := by
        rw [emitTS, emitTS, hu]
        simp [tsAppend]
      have hs : skipCount (p :: ps) = skipCount ps := by
        simp [skipCount, List.filter_cons, h]
      rw [hstep, hemit, hs]
      congr 1
      simp [tsAppend, List.append_assoc]

theorem prepare_eq (gs : List (Option String × List Record)) :
    prepare gs = (emitTS gs, skipCount gs) := by
  have := foldl_prepStep gs (⟨[], [], []⟩, 0)
  simpa [prepare, tsAppend] using this

/-! ## Unfolding `load_csv` on a successful run -/

theorem load_csv_ok (csv : Csv) (ts : TrainingSet) (sk : Nat)
    (h : load_csv csv = .ok (ts, sk)) :
    ∃ records, parseAll csv.header csv.rows = .ok records ∧
      ts = emitTS (byQuery records) ∧ sk = skipCount (byQuery records) ∧
      ts.X ≠ [] := by
  rw [load_csv] at h
  cases hp : parseAll csv.header csv.rows with
  | error e => rw [hp] at h; exact absurd h (by simp)
  | ok records =>
    rw [hp] at h
    simp only [prepare_eq] at h
    by_cases hx : (emitTS (byQuery records)).X.isEmpty
    · rw [if_pos hx] at h
      exact absurd h (by simp)
    · rw [if_neg hx] at h
      simp only [Except.ok.injEq, Prod.mk.injEq] at h
      refine ⟨records, rfl, h.1.symm, h.2.symm, ?_⟩
      intro hnil
      apply hx
      rw [h.1, hnil]
      rfl

theorem load_csv_error_of_parse_error (csv : Csv) (e : LoadError)
    (h : parseAll csv.header csv.rows = .error e) :
    load_csv csv = .error e := by
  rw [load_csv, h]

theorem load_csv_of_parse_ok (csv : Csv) (records : List Record)
    (h : parseAll csv.header csv.rows = .ok records) :
    load_csv csv =
      (if (emitTS (byQuery records)).X.isEmpty then .error .noUsableData
       else .ok (emitTS (byQuery records), skipCount (byQuery records))) := by
  rw [load_csv, h]
  simp only [prepare_eq]

/-! ## Distinct labels versus uniform labels -/

theorem dedup_length_le_one_iff {α : Type} [DecidableEq α] (l : List α) :
    l.dedup.length ≤ 1 ↔ ∀ a ∈ l, ∀ b ∈ l, a = b := by
  constructor
  · intro h a ha b hb
    have ha2 : a ∈ l.dedup := List.mem_dedup.mpr ha
    have hb2 : b ∈ l.dedup := List.mem_dedup.mpr hb
    cases hd : l.dedup with
    | nil => rw [hd] at ha2; exact absurd ha2 (List.not_mem_nil a)
    | cons x tail =>
      cases tail with
      | nil =>
        rw [hd] at ha2 hb2
        have hax : a = x := by simpa using ha2
        have hbx : b = x := by simpa using hb2
        rw [hax, hbx]
      | cons y rest =>
        rw [hd] at h
        simp at h
  · intro h
    by_contra hlen
    push_neg at hlen
    cases hd : l.dedup with
    | nil => rw [hd] at hlen; simp at hlen
    | cons x tail =>
      cases tail with
      | nil => rw [hd] at hlen; simp at hlen
      | cons y rest =>
        have hnd := l.nodup_dedup
        rw [hd] at hnd
        have hxy : x ≠ y := by
          rcases List.nodup_cons.mp hnd with ⟨hx, _⟩
          exact fun he => hx (by rw [he]; exact List.mem_cons_self y rest)
        have hx2 : x ∈ l := List.mem_dedup.mp (by rw [hd]; exact List.mem_cons_self x (y :: rest))
        have hy2 : y ∈ l :=
          List.mem_dedup.mp (by rw [hd]; exact List.mem_cons_of_mem x (List.mem_cons_self y rest))
        exact hxy (h x hx2 y hy2)

theorem uniformLabels_iff (items : List Record) :
    uniformLabels items = true ↔ distinctLabelCount items < 2 := by
  have key := dedup_length_le_one_iff (items.map Record.label)
  rw [uniformLabels, distinctLabelCount]
  constructor
  · intro h
    have hall : ∀ a ∈ items.map Record.label, ∀ b ∈ items.map Record.label, a = b := by
      intro a ha b hb
      rcases List.mem_map.mp ha with ⟨r, hr, rfl⟩
      rcases List.mem_map.mp hb with ⟨s, hs, rfl⟩
      simp only [List.all_eq_true] at h
      exact beq_iff_eq.mp (by simpa using h r hr s hs)
    have := key.mpr hall
    omega
  · intro h
    have hall := key.mp (by omega)
    simp only [List.all_eq_true]
    intro r hr s hs
    exact beq_iff_eq.mpr
      (hall r.label (List.mem_map_of_mem Record.label hr)
        s.label (List.mem_map_of_mem Record.label hs))

theorem two_le_length_of_usable (items : List Record)
    (h : 2 ≤ distinctLabelCount items) : 2 ≤ items.length := by
  have h1 : (items.map Record.label).dedup.length ≤ (items.map Record.label).length :=
    (List.dedup_sublist _).length_le
  have h2 : (items.map Record.label).length = items.length := by simp
  rw [distinctLabelCount] at h
  omega

/-! ## Header fields and parse success -/

/-- The fields the loader reads from every row. -/
def requiredFields : List String := "qid" :: "label" :: FEATURE_COLS

theorem fieldIdx_eq_none_iff (header : List String) (f : String) :
    fieldIdx header f = none ↔ f ∉ header := by
  rw [fieldIdx, List.findIdx?_eq_none_iff]
  constructor
  · intro h hf
    have := h f hf
    simp at this
  · intro hf x hx
    exact beq_eq_false_iff_ne.mpr (fun he => hf (he ▸ hx))

theorem mem_of_fieldIdx_eq_some (header : List String) (f : String) (i : Nat)
    (h : fieldIdx header f = some i) : f ∈ header := by
  by_contra hf
  rw [(fieldIdx_eq_none_iff header f).mpr hf] at h
  exact absurd h (by simp)

theorem rowKey_ok_mem (header vals : List String) (q : Option String)
    (h : rowKey header vals = .ok q) : "qid" ∈ header := by
  rw [rowKey] at h
  cases hi : fieldIdx header "qid" with
  | none => rw [hi] at h; exact absurd h (by simp)
  | some i => exact mem_of_fieldIdx_eq_some header "qid" i hi

theorem rowField_ok_mem (header vals : List String) (f t : String)
    (h : rowField header vals f = .ok t) : f ∈ header := by
  rw [rowField] at h
  cases hi : fieldIdx header f with
  | none => rw [hi] at h; exact absurd h (by simp)
  | some i => exact mem_of_fieldIdx_eq_some header f i hi

theorem parseFeatures_ok_mem (header vals : List String) (cols fs : List String)
    (h : parseFeatures header vals cols = .ok fs) :
    ∀ c ∈ cols, c ∈ header := by
  induction cols generalizing fs with
  | nil => intro c hc; exact absurd hc (List.not_mem_nil c)
  | cons c cs ih =>
    intro d hd
    rw [parseFeatures] at h
    split at h
    · exact absurd h (by simp)
    · rename_i t hf
      split at h
      · exact absurd h (by simp)
      · rename_i v hv
        split at h
        · exact absurd h (by simp)
        · rename_i rest hr
          rcases List.mem_cons.mp hd with rfl | hd2
          · exact rowField_ok_mem header vals d t hf
          · exact ih rest hr d hd2

theorem parseRow_ok_mem (header vals : List String) (r : Record)
    (h : parseRow header vals = .ok r) : ∀ f ∈ requiredFields, f ∈ header := by
  rw [parseRow] at h
  split at h
  · exact absurd h (by simp)
  · rename_i qid hk
    split at h
    · exact absurd h (by simp)
    · rename_i labelText hl
      split at h
      · exact absurd h (by simp)
      · rename_i label hn
        split at h
        · exact absurd h (by simp)
        · rename_i features hfeat
          intro f hf2
          rcases List.mem_cons.mp hf2 with rfl | hf3
          · exact rowKey_ok_mem header vals qid hk
          · rcases List.mem_cons.mp hf3 with rfl | hf4
            · exact rowField_ok_mem header vals "label" labelText hl
            · exact parseFeatures_ok_mem header vals FEATURE_COLS features hfeat f hf4

theorem parseRow_error_of_missing (header vals : List String) (f : String)
    (hreq : f ∈ requiredFields) (hf : f ∉ header) :
    ∃ e, parseRow header vals = .error e := by
  cases h : parseRow header vals with
  | error e => exact ⟨e, rfl⟩
  | ok r => exact absurd (parseRow_ok_mem header vals r h f hreq) hf

theorem parseAll_error_of_missing (header : List String) (rows : List (List String))
    (f : String) (hreq : f ∈ requiredFields) (hf : f ∉ header) (hne : rows ≠ []) :
    ∃ e, parseAll header rows = .error e := by
  cases rows with
  | nil => exact absurd rfl hne
  | cons v vs =>
    rcases parseRow_error_of_missing header v f hreq hf with ⟨e, he⟩
    rw [parseAll, he]
    exact ⟨e, rfl⟩

theorem parseRow_qid_missing (header vals : List String)
    (hf : "qid" ∉ header) : parseRow header vals = .error (.schemaMismatch "qid") := by
  rw [parseRow, rowKey, (fieldIdx_eq_none_iff header "qid").mpr hf]

theorem parseRow_label_missing (header vals : List String)
    (hq : "qid" ∈ header) (hl : "label" ∉ header) :
    parseRow header vals = .error (.schemaMismatch "label") := by
  cases hi : fieldIdx header "qid" with
  | none => exact absurd ((fieldIdx_eq_none_iff header "qid").mp hi) (by simpa using hq)
  | some i =>
    rw [parseRow, rowKey, hi, rowField, (fieldIdx_eq_none_iff header "label").mpr hl]

/-! ## Malformed rows under a complete schema -/

/-- The record source has all required fields and no short rows, so the
only way a row can fail is numeric parsing. -/
def WellShaped (csv : Csv) : Prop :=
  (∀ f ∈ requiredFields, f ∈ csv.header) ∧
  ∀ vals ∈ csv.rows, csv.header.length ≤ vals.length

/-- The row's label cell does not parse as an integer. -/
def labelBad (header vals : List String) : Prop :=
  ∃ t, rowField header vals "label" = .ok t ∧ parseIntPy t = none

/-- Some feature cell of the row does not parse as a float. -/
def featureBad (header vals : List String) : Prop :=
  ∃ c ∈ FEATURE_COLS, ∃ t, rowField header vals c = .ok t ∧ parseFloatPy t = none

theorem fieldIdx_lt_of_mem (header : List String) (f : String) (hf : f ∈ header) :
    ∃ i, fieldIdx header f = some i ∧ i < header.length := by
  cases hi : fieldIdx header f with
  | none => exact absurd ((fieldIdx_eq_none_iff header f).mp hi) (by simpa using hf)
  | some i =>
    refine ⟨i, rfl, ?_⟩
    have := List.findIdx?_eq_some_iff_findIdx_eq.mp hi
    exact this.1

theorem rowField_ok_of_shape (header vals : List String) (f : String)
    (hf : f ∈ header) (hlen : header.length ≤ vals.length) :
    ∃ t, rowField header vals f = .ok t := by
  rcases fieldIdx_lt_of_mem header f hf with ⟨i, hi, hlt⟩
  have hred : rowField header vals f =
      (match vals.get? i with
       | some v => Except.ok v
       | none => Except.error (LoadError.noneValue f)) := by
    rw [rowField, hi]
  cases hv : vals.get? i with
  | none =>
    have := List.get?_eq_none.mp hv
    omega
  | some v =>
    refine ⟨v, ?_⟩
    rw [hred, hv]

theorem rowKey_ok_of_mem (header vals : List String) (hf : "qid" ∈ header) :
    ∃ q, rowKey header vals = .ok q := by
  rcases fieldIdx_lt_of_mem header "qid" hf with ⟨i, hi, _⟩
  rw [rowKey, hi]
  exact ⟨vals.get? i, rfl⟩

theorem parseFeatures_shape_error (header vals : List String)
    (hlen : header.length ≤ vals.length) :
    ∀ (cols : List String) (e : LoadError),
      (∀ c ∈ cols, c ∈ header) → parseFeatures header vals cols = .error e →
      ∃ t, e = .malformedFloat t := by
  intro cols
  induction cols with
  | nil =>
    intro e _ h
    rw [parseFeatures] at h
    exact absurd h (by simp)
  | cons c cs ih =>
    intro e hcols h
    rw [parseFeatures] at h
    split at h
    · rename_i e2 hf
      rcases rowField_ok_of_shape header vals c (hcols c (by simp)) hlen with ⟨t, ht⟩
      rw [ht] at hf
      exact absurd hf (by simp)
    · rename_i t hf
      split at h
      · rename_i hv
        simp only [Except.error.injEq] at h
        exact ⟨t, h.symm⟩
      · rename_i v hv
        split at h
        · rename_i e2 hr
          simp only [Except.error.injEq] at h
          subst h
          exact ih e2 (fun d hd => hcols d (List.mem_cons_of_mem c hd)) hr
        · exact absurd h (by simp)

theorem parseRow_shape_error_malformed (header vals : List String) (e : LoadError)
    (hfields : ∀ f ∈ requiredFields, f ∈ header)
    (hlen : header.length ≤ vals.length)
    (h : parseRow header vals = .error e) :
    ∃ t, e = .malformedInt t ∨ e = .malformedFloat t := by
  have hq : "qid" ∈ header := hfields "qid" (by simp [requiredFields])
  have hl : "label" ∈ header := hfields "label" (by simp [requiredFields])
  rw [parseRow] at h
  split at h
  · rename_i e2 hk
    rcases rowKey_ok_of_mem header vals hq with ⟨q, hk2⟩
    rw [hk2] at hk
    exact absurd hk (by simp)
  · rename_i q hk
    split at h
    · rename_i e2 hl2
      rcases rowField_ok_of_shape header vals "label" hl hlen with ⟨t0, hl3⟩
      rw [hl3] at hl2
      exact absurd hl2 (by simp)
    · rename_i t0 hl2
      split at h
      · rename_i hn
        simp only [Except.error.injEq] at h
        exact ⟨t0, Or.inl h.symm⟩
      · rename_i label hn
        split at h
        · rename_i e2 hfe
          simp only [Except.error.injEq] at h
          subst h
          rcases parseFeatures_shape_error header vals hlen FEATURE_COLS e2
            (fun c hc => hfields c (by simp [requiredFields, hc])) hfe with ⟨t, ht⟩
          exact ⟨t, Or.inr ht⟩
        · exact absurd h (by simp)

theorem parseAll_error_mem (header : List String) (rows : List (List String))
    (e : LoadError) (h : parseAll header rows = .error e) :
    ∃ v ∈ rows, parseRow header v = .error e := by
  induction rows with
  | nil => rw [parseAll] at h; exact absurd h (by simp)
  | cons v vs ih =>
    rw [parseAll] at h
    split at h
    · rename_i e2 hv
      simp only [Except.error.injEq] at h
      subst h
      exact ⟨v, by simp, hv⟩
    · rename_i r hr
      split at h
      · rename_i e2 hvs
        simp only [Except.error.injEq] at h
        subst h
        rcases ih hvs with ⟨w, hw, hw2⟩
        exact ⟨w, List.mem_cons_of_mem v hw, hw2⟩
      · exact absurd h (by simp)

theorem parseAll_ok_rows (header : List String) (rows : List (List String))
    (records : List Record) (h : parseAll header rows = .ok records) :
    ∀ v ∈ rows, ∃ r, parseRow header v = .ok r := by
  induction rows generalizing records with
  | nil => intro v hv; exact absurd hv (List.not_mem_nil v)
  | cons v vs ih =>
    intro w hw
    rw [parseAll] at h
    split at h
    · exact absurd h (by simp)
    · rename_i r hr
      split at h
      · exact absurd h (by simp)
      · rename_i rs hrs
        rcases List.mem_cons.mp hw with rfl | hw2
        · exact ⟨r, hr⟩
        · exact ih rs hrs w hw2

theorem parseFeatures_ok_no_bad (header vals : List String) :
    ∀ (cols fs : List String), parseFeatures header vals cols = .ok fs →
      ∀ c ∈ cols, ∀ t, rowField header vals c = .ok t → parseFloatPy t ≠ none := by
  intro cols
  induction cols with
  | nil => intro fs _ c hc; exact absurd hc (List.not_mem_nil c)
  | cons c cs ih =>
    intro fs h d hd t ht hbad
    rw [parseFeatures] at h
    split at h
    · exact absurd h (by simp)
    · rename_i t2 hf
      split at h
      · exact absurd h (by simp)
      · rename_i v hv
        split at h
        · exact absurd h (by simp)
        · rename_i rest hr
          rcases List.mem_cons.mp hd with rfl | hd2
          · rw [hf] at ht
            simp only [Except.ok.injEq] at ht
            subst ht
            rw [hv] at hbad
            exact absurd hbad (by simp)
          · exact ih rest hr d hd2 t ht hbad

theorem parseRow_ok_not_bad (header vals : List String) (r : Record)
    (h : parseRow header vals = .ok r) :
    ¬ labelBad header vals ∧ ¬ featureBad header vals := by
  rw [parseRow] at h
  split at h
  · exact absurd h (by simp)
  · rename_i q hk
    split at h
    · exact absurd h (by simp)
    · rename_i t0 hl
      split at h
      · exact absurd h (by simp)
      · rename_i label hn
        split at h
        · exact absurd h (by simp)
        · rename_i features hfe
          constructor
          · rintro ⟨t, ht, hbad⟩
            rw [hl] at ht
            simp only [Except.ok.injEq] at ht
            subst ht
            rw [hn] at hbad
            exact absurd hbad (by simp)
          · rintro ⟨c, hc, t, ht, hbad⟩
            exact parseFeatures_ok_no_bad header vals FEATURE_COLS features hfe
              c hc t ht hbad

/-! ## Label equivariance: the loader never inspects a label's value -/

/-- Apply a relabeling to one record. -/
def relabel (σ : Int → Int) (r : Record) : Record :=
  { r with label := σ r.label }

theorem firstKeys_relabel (σ : Int → Int) (records : List Record) :
    firstKeys (records.map (relabel σ)) = firstKeys records := by
  rw [firstKeys, firstKeys, List.foldl_map]
  have hstep : (fun (ks : List (Option String)) (r : Record) =>
      firstKeysStep ks (relabel σ r)) = firstKeysStep := by
    funext ks r
    rfl
  rw [hstep]

theorem groupOf_relabel (σ : Int → Int) (records : List Record) (q : Option String) :
    groupOf (records.map (relabel σ)) q = (groupOf records q).map (relabel σ) := by
  rw [groupOf, groupOf, List.filter_map]
  have hpred : ((fun (r : Record) => r.qid == q) ∘ relabel σ) =
      (fun (r : Record) => r.qid == q) := by
    funext r
    rfl
  rw [hpred]

theorem byQuery_relabel (σ : Int → Int) (records : List Record) :
    byQuery (records.map (relabel σ)) =
      (byQuery records).map (fun p => (p.1, p.2.map (relabel σ))) := by
  rw [byQuery_eq_canon, byQuery_eq_canon, canonGroups, canonGroups,
    firstKeys_relabel, List.map_map]
  refine List.map_congr_left (fun q _ => ?_)
  simp [Function.comp, groupOf_relabel]

theorem distinctLabelCount_relabel (σ : Int → Int) (hσ : Function.Injective σ)
    (items : List Record) :
    distinctLabelCount (items.map (relabel σ)) = distinctLabelCount items := by
  rw [distinctLabelCount, distinctLabelCount, List.map_map]
  have hcomp : (Record.label ∘ relabel σ) = σ ∘ Record.label := rfl
  rw [hcomp, ← List.map_map, List.dedup_map_of_injective hσ, List.length_map]

theorem usableOf_relabel (σ : Int → Int) (hσ : Function.Injective σ)
    (gs : List (Option String × List Record)) :
    usableOf (gs.map (fun p => (p.1, p.2.map (relabel σ)))) =
      (usableOf gs).map (fun p => (p.1, p.2.map (relabel σ))) := by
  rw [usableOf, usableOf, List.filter_map]
  congr 1
  refine List.filter_congr (fun p hp => ?_)
  simp [Function.comp, distinctLabelCount_relabel σ hσ]

theorem skipCount_relabel (σ : Int → Int) (hσ : Function.Injective σ)
    (gs : List (Option String × List Record)) :
    skipCount (gs.map (fun p => (p.1, p.2.map (relabel σ)))) = skipCount gs := by
  rw [skipCount, skipCount, List.filter_map, List.length_map]
  congr 1
  refine List.filter_congr (fun p hp => ?_)
  simp [Function.comp, distinctLabelCount_relabel σ hσ]

theorem emitTS_relabel (σ : Int → Int) (hσ : Function.Injective σ)
    (gs : List (Option String × List Record)) :
    emitTS (gs.map (fun p => (p.1, p.2.map (relabel σ)))) =
      ⟨(emitTS gs).X, (emitTS gs).y.map σ, (emitTS gs).groups⟩ := by
  rw [emitTS, emitTS, usableOf_relabel σ hσ]
  simp only [TrainingSet.mk.injEq]
  refine ⟨?_, ?_, ?_⟩
  · rw [List.flatMap_map]
    simp only [List.map_map]
    rfl
  · rw [List.flatMap_map, List.map_flatMap]
    simp only [List.map_map]
    rfl
  · rw [List.map_map]
    refine List.map_congr_left (fun p hp => ?_)
    simp [Function.comp]

theorem prepare_relabel (σ : Int → Int) (hσ : Function.Injective σ)
    (records : List Record) :
    prepare (byQuery (records.map (relabel σ))) =
      (⟨(prepare (byQuery records)).1.X,
        ((prepare (byQuery records)).1.y).map σ,
        (prepare (byQuery records)).1.groups⟩,
       (prepare (byQuery records)).2) := by
  rw [byQuery_relabel, prepare_eq, prepare_eq, emitTS_relabel σ hσ,
    skipCount_relabel σ hσ]

/-! ## Boolean forms of the uniform-label test -/

theorem uniformLabels_eq_decide (items : List Record) :
    uniformLabels items = decide (distinctLabelCount items < 2) := by
  by_cases h : distinctLabelCount items < 2
  · rw [(uniformLabels_iff items).mpr h, decide_eq_true h]
  · have h1 : uniformLabels items = false := by
      cases hu : uniformLabels items
      · rfl
      · exact absurd ((uniformLabels_iff items).mp hu) h
    rw [h1, decide_eq_false h]

theorem bnot_uniformLabels_eq_decide (items : List Record) :
    (!uniformLabels items) = decide (2 ≤ distinctLabelCount items) := by
  rw [uniformLabels_eq_decide]
  by_cases h : distinctLabelCount items < 2
  · have h2 : ¬ (2 ≤ distinctLabelCount items) := by omega
    rw [decide_eq_true h, decide_eq_false h2]
    rfl
  · have h2 : 2 ≤ distinctLabelCount items := by omega
    rw [decide_eq_false h, decide_eq_true h2]
    rfl

theorem length_flatMap {α β : Type} (l : List α) (f : α → List β) :
    (l.flatMap f).length = (l.map (fun a => (f a).length)).sum := by
  induction l with
  | nil => rfl
  | cons a as ih => simp [List.flatMap_cons, ih]

/-! ## Concrete inputs used by the witnesses and counterexamples -/

/-- The nine required header fields in the export order. -/
def fullHeader : List String :=
  ["qid", "label", "f0_similarity", "f1_rank_score", "f2_authority",
   "f3_source_boost", "f4_crop_match", "f5_term_density", "f6_chunk_pos"]

/-- Seven well-formed feature cells. -/
def featCells : List String :=
  ["0.1", "2", "3.5", "0", "1e2", ".5", "0.0"]

/-- A full-width data row with the given query id and label text. -/
def mkRow (q lab : String) : List String := q :: lab :: featCells

/-- A header that lacks `qid`. -/
def headerNoQid : List String :=
  ["label", "f0_similarity", "f1_rank_score", "f2_authority",
   "f3_source_boost", "f4_crop_match", "f5_term_density", "f6_chunk_pos"]

/-- A header that lacks the last feature column. -/
def headerNoF6 : List String :=
  ["qid", "label", "f0_similarity", "f1_rank_score", "f2_authority",
   "f3_source_boost", "f4_crop_match", "f5_term_density"]

/-- A header that lacks `label`. -/
def headerNoLabel : List String :=
  ["qid", "f0_similarity", "f1_rank_score", "f2_authority",
   "f3_source_boost", "f4_crop_match", "f5_term_density", "f6_chunk_pos"]

/-- Two rows, one query, two distinct labels. -/
def csvTwo : Csv := ⟨fullHeader, [mkRow "q1" "0", mkRow "q1" "1"]⟩

/-- Four rows: q1 has labels 0 and 1, q2 twice label 1 (uniform). -/
def csvFour : Csv :=
  ⟨fullHeader, [mkRow "q1" "0", mkRow "q1" "1", mkRow "q2" "1", mkRow "q2" "1"]⟩

/-- The parsed records of `csvFour`. -/
def recsFour : List Record :=
  [⟨some "q1", 0, featCells⟩, ⟨some "q1", 1, featCells⟩,
   ⟨some "q2", 1, featCells⟩, ⟨some "q2", 1, featCells⟩]

/-- The two usable records of `csvTwo`, already parsed. -/
def recsTwo : List Record :=
  [⟨some "q1", 0, featCells⟩, ⟨some "q1", 1, featCells⟩]

/-! ## Claim theorems -/

/-- C8: the gain table used by the trainer is the fixed configuration
constant mapping label 0 to gain 0, label 1 to gain 1 and label 2 to gain 3;
it is monotonically non-decreasing in the label, non-negative everywhere,
and it is exactly the label_gain entry of the trainer's parameter dict. -/
theorem gain_table_fixed_monotone_nonneg :
    LABEL_GAIN = [0, 1, 3] ∧
    LABEL_GAIN.get? 0 = some 0 ∧ LABEL_GAIN.get? 1 = some 1 ∧
    LABEL_GAIN.get? 2 = some 3 ∧
    List.Sorted (· ≤ ·) LABEL_GAIN ∧
    (∀ g ∈ LABEL_GAIN, 0 ≤ g) ∧
    trainParams.labelGain = LABEL_GAIN := by
  refine ⟨rfl, rfl, rfl, rfl, ?_, ?_, rfl⟩
  · decide
  · decide

/-- C9: `load_csv` is a deterministic function of the input row sequence:
the grouped records are exactly the distinct query ids in order of first
occurrence in the input, each paired with its records in input arrival
order, and two runs on the same input are equal. -/
theorem loader_deterministic_order :
    (∀ records : List Record, byQuery records =
      (firstKeys records).map (fun q => (q, records.filter (fun r => r.qid == q)))) ∧
    (∀ csv : Csv, load_csv csv = load_csv csv) :=
  ⟨fun records => byQuery_eq_canon records, fun _ => rfl⟩

/-- C4: whenever `load_csv` succeeds, every entry of the returned group-size
sequence is at least 2. -/
theorem group_sizes_at_least_two (csv : Csv) (ts : TrainingSet) (sk : Nat)
    (hok : load_csv csv = .ok (ts, sk)) :
    ∀ n ∈ ts.groups, 2 ≤ n := by
  rcases load_csv_ok csv ts sk hok with ⟨records, hp, hts, hsk, hne⟩
  subst hts
  intro n hn
  have hg : (emitTS (byQuery records)).groups =
      (usableOf (byQuery records)).map (fun p => p.2.length) := rfl
  rw [hg] at hn
  rcases List.mem_map.mp hn with ⟨p, hp2, rfl⟩
  rcases List.mem_filter.mp hp2 with ⟨_, hcond⟩
  have h2 : 2 ≤ distinctLabelCount p.2 := of_decide_eq_true hcond
  have := two_le_length_of_usable p.2 h2
  simpa using this

/-- Witness for C4 at a concrete input with one group of size 2. -/
theorem group_sizes_at_least_two_witness :
    load_csv csvTwo = .ok (⟨[featCells, featCells], [0, 1], [2]⟩, 0) ∧ 2 ≤ 2 :=
  ⟨by decide,
   group_sizes_at_least_two csvTwo ⟨[featCells, featCells], [0, 1], [2]⟩ 0
     (by decide) 2 (by decide)⟩

/-- C2: whenever `load_csv` succeeds, the sum of the group sizes equals the
number of labels and the number of feature rows, and the three output
sequences are flattenings of one list of groups in one shared order. -/
theorem training_set_shape (csv : Csv) (ts : TrainingSet) (sk : Nat)
    (hok : load_csv csv = .ok (ts, sk)) :
    ts.groups.sum = ts.y.length ∧ ts.y.length = ts.X.length ∧
    ∃ gs : List (List Record),
      ts.X = gs.flatMap (fun g => g.map Record.features) ∧
      ts.y = gs.flatMap (fun g => g.map Record.label) ∧
      ts.groups = gs.map List.length := by
  rcases load_csv_ok csv ts sk hok with ⟨records, hp, hts, hsk, hne⟩
  subst hts
  have hX : (emitTS (byQuery records)).X =
      (usableOf (byQuery records)).flatMap (fun p => p.2.map Record.features) := rfl
  have hy : (emitTS (byQuery records)).y =
      (usableOf (byQuery records)).flatMap (fun p => p.2.map Record.label) := rfl
  have hg : (emitTS (byQuery records)).groups =
      (usableOf (byQuery records)).map (fun p => p.2.length) := rfl
  refine ⟨?_, ?_, (usableOf (byQuery records)).map Prod.snd, ?_, ?_, ?_⟩
  · rw [hy, hg, length_flatMap]
    congr 1
    refine List.map_congr_left (fun p hp2 => ?_)
    simp
  · rw [hy, hX, length_flatMap, length_flatMap]
    congr 1
    refine List.map_congr_left (fun p hp2 => ?_)
    simp
  · rw [hX, List.flatMap_map]
  · rw [hy, List.flatMap_map]
  · rw [hg, List.map_map]
    rfl

/-- Witness for C2 at a concrete input: one emitted group of size 2. -/
theorem training_set_shape_witness :
    load_csv csvTwo = .ok (⟨[featCells, featCells], [0, 1], [2]⟩, 0) ∧
    (⟨[featCells, featCells], [0, 1], [2]⟩ : TrainingSet).groups.sum =
      (⟨[featCells, featCells], [0, 1], [2]⟩ : TrainingSet).y.length :=
  ⟨by decide,
   (training_set_shape csvTwo ⟨[featCells, featCells], [0, 1], [2]⟩ 0 (by decide)).1⟩

/-- C1: on every successful load, a group whose records all carry one label
contributes no rows — the emitted features and labels are exactly the
flattening of the non-uniform groups — and the skipped-group counter equals
exactly the number of uniform-label groups of the input. -/
theorem uniform_groups_never_emitted (csv : Csv) (ts : TrainingSet) (sk : Nat)
    (records : List Record)
    (hok : load_csv csv = .ok (ts, sk))
    (hparse : parseAll csv.header csv.rows = .ok records) :
    sk = ((byQuery records).filter (fun p => uniformLabels p.2)).length ∧
    ts.X = ((byQuery records).filter (fun p => !uniformLabels p.2)).flatMap
      (fun p => p.2.map Record.features) ∧
    ts.y = ((byQuery records).filter (fun p => !uniformLabels p.2)).flatMap
      (fun p => p.2.map Record.label) := by
  rcases load_csv_ok csv ts sk hok with ⟨records2, hp2, hts, hsk, _⟩
  rw [hparse] at hp2
  injection hp2 with hrec
  subst hrec
  have hfilter1 : (byQuery records).filter (fun p => uniformLabels p.2) =
      (byQuery records).filter (fun p => decide (distinctLabelCount p.2 < 2)) :=
    List.filter_congr (fun p _ => uniformLabels_eq_decide p.2)
  have hfilter2 : (byQuery records).filter (fun p => !uniformLabels p.2) =
      usableOf (byQuery records) :=
    List.filter_congr (fun p _ => bnot_uniformLabels_eq_decide p.2)
  refine ⟨?_, ?_, ?_⟩
  · rw [hsk, skipCount, hfilter1]
  · rw [hts, hfilter2]
    rfl
  · rw [hts, hfilter2]
    rfl

/-- Witness for C1: q1 carries labels 0 and 1, q2 twice label 1; the
skipped counter is 1 and only q1 is emitted. -/
theorem uniform_groups_never_emitted_witness :
    load_csv csvFour = .ok (⟨[featCells, featCells], [0, 1], [2]⟩, 1) ∧
    (1 : Nat) = ((byQuery recsFour).filter (fun p => uniformLabels p.2)).length :=
  ⟨by decide,
   (uniform_groups_never_emitted csvFour ⟨[featCells, featCells], [0, 1], [2]⟩ 1
     recsFour (by decide) (by decide)).1⟩

/-- C3: an input with zero records, and an input whose groups all carry one
label, make `load_csv` fail with the NoUsableData exit; the pipeline then
produces no training result — the trainer is never invoked. -/
theorem no_usable_data_failure (csv : Csv) :
    (csv.rows = [] →
      load_csv csv = .error .noUsableData ∧
      runPipeline csv = .error .noUsableData) ∧
    (∀ records, parseAll csv.header csv.rows = .ok records →
      (∀ p ∈ byQuery records, uniformLabels p.2 = true) →
      load_csv csv = .error .noUsableData ∧
      runPipeline csv = .error .noUsableData) := by
  have hpipe : ∀ e, load_csv csv = .error e → runPipeline csv = .error e := by
    intro e he
    rw [runPipeline, he]
  constructor
  · intro hrows
    have hparse : parseAll csv.header csv.rows = .ok [] := by
      rw [hrows, parseAll]
    have hload := load_csv_of_parse_ok csv [] hparse
    have hl : load_csv csv = .error .noUsableData := by
      rw [hload]
      rfl
    exact ⟨hl, hpipe _ hl⟩
  · intro records hparse huni
    have hload := load_csv_of_parse_ok csv records hparse
    have hun : usableOf (byQuery records) = [] := by
      rw [usableOf, List.filter_eq_nil_iff]
      intro p hp
      have hcount := (uniformLabels_iff p.2).mp (huni p hp)
      simp only [decide_eq_true_eq]
      omega
    have hX : (emitTS (byQuery records)).X = [] := by
      have : (emitTS (byQuery records)).X =
          (usableOf (byQuery records)).flatMap (fun p => p.2.map Record.features) := rfl
      rw [this, hun]
      rfl
    have hempty : (emitTS (byQuery records)).X.isEmpty = true := by
      rw [hX]
      rfl
    have hl : load_csv csv = .error .noUsableData := by
      rw [hload, if_pos hempty]
    exact ⟨hl, hpipe _ hl⟩

/-- Witness for C3 at two concrete inputs: an empty record sequence and a
sequence whose two groups are both uniform. -/
theorem no_usable_data_failure_witness :
    (load_csv ⟨fullHeader, []⟩ = .error .noUsableData ∧
      runPipeline ⟨fullHeader, []⟩ = .error .noUsableData) ∧
    (load_csv ⟨fullHeader, [mkRow "q1" "1", mkRow "q1" "1", mkRow "q2" "0"]⟩ =
        .error .noUsableData ∧
      runPipeline ⟨fullHeader, [mkRow "q1" "1", mkRow "q1" "1", mkRow "q2" "0"]⟩ =
        .error .noUsableData) :=
  ⟨(no_usable_data_failure ⟨fullHeader, []⟩).1 rfl,
   (no_usable_data_failure ⟨fullHeader, [mkRow "q1" "1", mkRow "q1" "1", mkRow "q2" "0"]⟩).2
     [⟨some "q1", 1, featCells⟩, ⟨some "q1", 1, featCells⟩, ⟨some "q2", 0, featCells⟩]
     (by decide) (by decide)⟩

/-- C5 counterexample: the ValueError carries only the offending text.  A
bad label in record 0 and a bad label in record 1 of otherwise different
inputs produce the identical error value, and a bad cell in feature column
f0 produces the same error value as a bad cell in column f5 — so the
condition the run fails with cannot name the offending field or record. -/
theorem malformed_record_counterexample :
    load_csv ⟨fullHeader, [mkRow "q1" "abc"]⟩ = .error (.malformedInt "abc") ∧
    load_csv ⟨fullHeader, [mkRow "q1" "1", mkRow "q2" "abc"]⟩ =
      .error (.malformedInt "abc") ∧
    load_csv ⟨fullHeader,
        [["q1", "1", "abc", "2", "3.5", "0", "1e2", ".5", "0.0"]]⟩ =
      .error (.malformedFloat "abc") ∧
    load_csv ⟨fullHeader,
        [["q1", "1", "0.1", "2", "3.5", "0", "1e2", "abc", "0.0"]]⟩ =
      .error (.malformedFloat "abc") := by
  refine ⟨by decide, by decide, by decide, by decide⟩

/-- C5 amended: on a record source with the full schema and no short rows,
any row whose label or feature cell fails numeric parsing makes the whole
run abort with the corresponding ValueError — no coercion, no dropped row,
no partial training set; the error names the offending text (but not the
field or the record). -/
theorem malformed_record_aborts (csv : Csv)
    (hshape : WellShaped csv)
    (hbad : ∃ vals ∈ csv.rows, labelBad csv.header vals ∨ featureBad csv.header vals) :
    ∃ e, load_csv csv = .error e ∧
      ∃ t, e = .malformedInt t ∨ e = .malformedFloat t := by
  rcases hbad with ⟨vals, hv, hb⟩
  cases hp : parseAll csv.header csv.rows with
  | ok records =>
    rcases parseAll_ok_rows csv.header csv.rows records hp vals hv with ⟨r, hr⟩
    rcases parseRow_ok_not_bad csv.header vals r hr with ⟨h1, h2⟩
    rcases hb with hb | hb
    · exact absurd hb h1
    · exact absurd hb h2
  | error e =>
    refine ⟨e, load_csv_error_of_parse_error csv e hp, ?_⟩
    rcases parseAll_error_mem csv.header csv.rows e hp with ⟨w, hw, hw2⟩
    exact parseRow_shape_error_malformed csv.header w e hshape.1 (hshape.2 w hw) hw2

/-- Witness for the amended C5 at a concrete input with a bad label cell. -/
theorem malformed_record_aborts_witness :
    WellShaped ⟨fullHeader, [mkRow "q1" "abc"]⟩ ∧
    ∃ e, load_csv ⟨fullHeader, [mkRow "q1" "abc"]⟩ = .error e ∧
      ∃ t, e = .malformedInt t ∨ e = .malformedFloat t :=
  ⟨⟨by decide, by decide⟩,
   malformed_record_aborts ⟨fullHeader, [mkRow "q1" "abc"]⟩ ⟨by decide, by decide⟩
     ⟨mkRow "q1" "abc", by decide, Or.inl ⟨"abc", by decide, by decide⟩⟩⟩

/-- C6 counterexample: a record source whose header lacks qid but which
contains zero records fails with NoUsableData, not SchemaMismatch; and when
the header lacks the last feature column but the first record's label cell
is itself malformed, the failure is the label's ValueError, reached before
the KeyError for the missing column. -/
theorem schema_mismatch_counterexample :
    load_csv ⟨headerNoQid, []⟩ = .error .noUsableData ∧
    load_csv ⟨headerNoF6, [["q1", "abc", "0", "0", "0", "0", "0", "0"]]⟩ =
      .error (.malformedInt "abc") := by
  refine ⟨by decide, by decide⟩

/-- C6 amended: a record source missing a required field and containing at
least one record always fails before producing any TrainingSet; when the
missing field is qid the failure is the SchemaMismatch naming qid, and when
qid is present but label is missing the failure is the SchemaMismatch
naming label — in both cases a KeyError raised on the very first record,
before any grouping, which nothing can preempt. -/
theorem schema_mismatch_amended (csv : Csv) (f : String)
    (hreq : f ∈ requiredFields) (hmiss : f ∉ csv.header) (hne : csv.rows ≠ []) :
    (∃ e, load_csv csv = .error e) ∧
    ("qid" ∉ csv.header → load_csv csv = .error (.schemaMismatch "qid")) ∧
    ("qid" ∈ csv.header → "label" ∉ csv.header →
      load_csv csv = .error (.schemaMismatch "label")) := by
  refine ⟨?_, ?_, ?_⟩
  · rcases parseAll_error_of_missing csv.header csv.rows f hreq hmiss hne with ⟨e, he⟩
    exact ⟨e, load_csv_error_of_parse_error csv e he⟩
  · intro hq
    cases hrows : csv.rows with
    | nil => exact absurd hrows hne
    | cons v vs =>
      have hrow := parseRow_qid_missing csv.header v hq
      have hall : parseAll csv.header csv.rows = .error (.schemaMismatch "qid") := by
        rw [hrows, parseAll, hrow]
      exact load_csv_error_of_parse_error csv _ hall
  · intro hq hl
    cases hrows : csv.rows with
    | nil => exact absurd hrows hne
    | cons v vs =>
      have hrow := parseRow_label_missing csv.header v hq hl
      have hall : parseAll csv.header csv.rows = .error (.schemaMismatch "label") := by
        rw [hrows, parseAll, hrow]
      exact load_csv_error_of_parse_error csv _ hall

/-- Witness for the amended C6 at two concrete inputs: a header without
qid and a header without label, one record each. -/
theorem schema_mismatch_amended_witness :
    ((∃ e, load_csv ⟨headerNoQid, [["1", "0", "0", "0", "0", "0", "0", "0"]]⟩ =
        .error e) ∧
     ("qid" ∉ headerNoQid →
       load_csv ⟨headerNoQid, [["1", "0", "0", "0", "0", "0", "0", "0"]]⟩ =
         .error (.schemaMismatch "qid")) ∧
     ("qid" ∈ headerNoQid → "label" ∉ headerNoQid →
       load_csv ⟨headerNoQid, [["1", "0", "0", "0", "0", "0", "0", "0"]]⟩ =
         .error (.schemaMismatch "label"))) ∧
    ((∃ e, load_csv ⟨headerNoLabel, [["q1", "0", "0", "0", "0", "0", "0", "0"]]⟩ =
        .error e) ∧
     ("qid" ∉ headerNoLabel →
       load_csv ⟨headerNoLabel, [["q1", "0", "0", "0", "0", "0", "0", "0"]]⟩ =
         .error (.schemaMismatch "qid")) ∧
     ("qid" ∈ headerNoLabel → "label" ∉ headerNoLabel →
       load_csv ⟨headerNoLabel, [["q1", "0", "0", "0", "0", "0", "0", "0"]]⟩ =
         .error (.schemaMismatch "label"))) :=
  ⟨schema_mismatch_amended ⟨headerNoQid, [["1", "0", "0", "0", "0", "0", "0", "0"]]⟩
     "qid" (by decide) (by decide) (by decide),
   schema_mismatch_amended ⟨headerNoLabel, [["q1", "0", "0", "0", "0", "0", "0", "0"]]⟩
     "label" (by decide) (by decide) (by decide)⟩

/-- C7 counterexample: `train` performs no defensive validation — on the
empty training set it does not fail with InvalidTrainingSet but delegates
unconditionally to the external boosting library. -/
theorem trainer_no_defensive_check_counterexample :
    train [] [] [] = .delegate [] [] [] trainParams 300 ∧
    train [] [] [] ≠ .invalidTrainingSet :=
  ⟨rfl, by decide⟩

/-- C7 amended: the trainer validates nothing: for every argument,
including a training set with an empty group sequence, it unconditionally
delegates to the external library with the fixed parameter dict and 300
rounds; an empty training set is kept away from it only by `load_csv`'s
NoUsableData failure upstream. -/
theorem trainer_delegates_unconditionally (X : List (List String)) (y : List Int)
    (groups : List Nat) :
    train X y groups = .delegate X y groups trainParams 300 ∧
    train X y groups ≠ .invalidTrainingSet :=
  ⟨rfl, by simp [train]⟩

/-- C10 counterexample: the claim's "loading succeeds" clause fails — a
well-formed input whose single row carries the out-of-range label 5 parses
fine, yet `load_csv` fails with NoUsableData, exactly as it does for an
in-range label. -/
theorem label_range_counterexample :
    parseIntPy "5" = some 5 ∧
    load_csv ⟨fullHeader, [mkRow "q1" "5"]⟩ = .error .noUsableData ∧
    load_csv ⟨fullHeader, [mkRow "q1" "1"]⟩ = .error .noUsableData := by
  refine ⟨by decide, by decide, by decide⟩

/-- C10 amended: the loader never validates the label's range: label cells
parsing to 5 or -1 are accepted, and the grouping, filtering and emission
phases are equivariant under every injective relabeling of the parsed
labels — an out-of-range label travels through them exactly as an in-range
one does. -/
theorem label_range_not_validated (records : List Record) (σ : Int → Int)
    (hσ : Function.Injective σ) :
    prepare (byQuery (records.map (relabel σ))) =
      (⟨(prepare (byQuery records)).1.X,
        ((prepare (byQuery records)).1.y).map σ,
        (prepare (byQuery records)).1.groups⟩,
       (prepare (byQuery records)).2) ∧
    parseIntPy "5" = some 5 ∧ parseIntPy "-1" = some (-1) :=
  ⟨prepare_relabel σ hσ records, by decide, by decide⟩

/-- Witness for the amended C10: relabeling by +5 sends the in-range labels
0 and 1 to the out-of-range 5 and 6 and changes nothing but the label
values in the prepared training set. -/
theorem label_range_not_validated_witness :
    Function.Injective (· + (5 : Int)) ∧
    prepare (byQuery (recsTwo.map (relabel (· + (5 : Int))))) =
      (⟨(prepare (byQuery recsTwo)).1.X,
        ((prepare (byQuery recsTwo)).1.y).map (· + (5 : Int)),
        (prepare (byQuery recsTwo)).1.groups⟩,
       (prepare (byQuery recsTwo)).2) :=
  ⟨add_left_injective 5,
   (label_range_not_validated recsTwo (· + (5 : Int)) (add_left_injective 5)).1⟩

end TrainRanker
